import Mathlib

/-!
Verification of the SecureVault password-manager core: the password
generator and strength estimator (src/unnamed/part_002), the encryption
service wiring (src/unnamed/part_004) and the vault codec
(src/unnamed/part_003).

Randomness is derandomized: every function of the source that draws from
`crypto.getRandomValues` takes the random byte stream as an explicit
argument `rng : Nat → Nat` together with a cursor into it, so that each
source-level draw of one byte reads `rng i % 256` and advances the cursor.
-/

namespace SecureVault

/-! ## Password generator (src/unnamed/part_002) -/

/-- Source constant UPPERCASE. -/
def UPPERCASE : List Char := "ABCDEFGHIJKLMNOPQRSTUVWXYZ".toList

/-- Source constant LOWERCASE. -/
def LOWERCASE : List Char := "abcdefghijklmnopqrstuvwxyz".toList

/-- Source constant NUMBERS. -/
def NUMBERS : List Char := "0123456789".toList

/-- Source constant SPECIAL_CHARS. -/
def SPECIAL_CHARS : List Char := "!@#$%^&*()_+-=[]\x7b\x7d|;:,.<>?".toList

/-- Source constant SIMILAR_CHARS (characters that look similar). -/
def SIMILAR_CHARS : List Char := "il1Lo0O".toList

/-- Source constant AMBIGUOUS_CHARS. -/
def AMBIGUOUS_CHARS : List Char := "\x7b\x7d[]()/\\'\"`~,;.<>".toList

/-- Character set removed by the regex replace in the includeSpecialChars
branch of generatePassword (note: unlike AMBIGUOUS_CHARS it has no tilde). -/
def ambiguousRemoved : List Char := "\x7b\x7d[]()/\\'\"`,;.<>".toList

/-- The PasswordOptions interface of the source.  JS optional number fields
become Option Nat. -/
structure PasswordOptions where
  length : Nat
  includeUppercase : Bool
  includeLowercase : Bool
  includeNumbers : Bool
  includeSpecialChars : Bool
  numberCount : Option Nat
  specialCharCount : Option Nat
  excludeSimilar : Bool
  excludeAmbiguous : Bool
deriving DecidableEq, Repr

/-- Source constant DEFAULT_PASSWORD_OPTIONS. -/
def DEFAULT_PASSWORD_OPTIONS : PasswordOptions :=
  { length := 16, includeUppercase := true, includeLowercase := true,
    includeNumbers := true, includeSpecialChars := true,
    numberCount := some 2, specialCharCount := some 2,
    excludeSimilar := true, excludeAmbiguous := false }

/-- The JS expression `x || 1` on an optional count: undefined and 0 are
falsy, so both default to 1. -/
def jsOr1 : Option Nat → Nat
  | some (Nat.succ n) => Nat.succ n
  | _ => 1

/-- The two throw sites of generatePassword. -/
inductive GenError where
  /-- Error: at least one character type must be selected. -/
  | noCharType
  /-- Error: password length is too short for the required character counts. -/
  | lengthTooShort
deriving DecidableEq, Repr

/-- One byte from the Uint8Array filled by crypto.getRandomValues. -/
def randomByte (rng : Nat → Nat) (i : Nat) : Nat := rng i % 256

/-- Source getRandomChar: `str[byte % str.length]`; the byte is passed in
explicitly.  The alphabet is never empty at any call site. -/
def getRandomChar (s : List Char) (b : Nat) : Char :=
  s.getD (b % s.length) '?'

/-- A `for` loop of n calls to getRandomChar on the same alphabet,
returning the drawn characters in order and the advanced rng cursor. -/
def drawChars (s : List Char) (n : Nat) (rng : Nat → Nat) (i : Nat) :
    List Char × Nat :=
  match n with
  | 0 => ([], i)
  | Nat.succ m =>
    let c := getRandomChar s (randomByte rng i)
    let r := drawChars s m rng (i + 1)
    (c :: r.1, r.2)

/-- Accumulator for generatePassword's charset/requiredChars variables plus
the rng cursor. -/
structure GenAcc where
  charset : List Char
  required : List Char
  idx : Nat
deriving DecidableEq, Repr

/-- One `if (options.includeX)` block of generatePassword: append the class
alphabet to the charset and draw n required characters from it. -/
def classStep (enabled : Bool) (alphabet : List Char) (n : Nat)
    (rng : Nat → Nat) (acc : GenAcc) : GenAcc :=
  if enabled then
    let r := drawChars alphabet n rng acc.idx
    { charset := acc.charset ++ alphabet,
      required := acc.required ++ r.1,
      idx := r.2 }
  else acc

/-- Uppercase alphabet after the excludeSimilar replace (regex [IL]). -/
def upperChars (o : PasswordOptions) : List Char :=
  if o.excludeSimilar then UPPERCASE.filter (fun c => !(c = 'I' || c = 'L'))
  else UPPERCASE

/-- Lowercase alphabet after the excludeSimilar replace (regex [il]). -/
def lowerChars (o : PasswordOptions) : List Char :=
  if o.excludeSimilar then LOWERCASE.filter (fun c => !(c = 'i' || c = 'l'))
  else LOWERCASE

/-- Number alphabet after the excludeSimilar replace (regex [10]). -/
def numberChars (o : PasswordOptions) : List Char :=
  if o.excludeSimilar then NUMBERS.filter (fun c => !(c = '1' || c = '0'))
  else NUMBERS

/-- Special alphabet after the excludeAmbiguous replace. -/
def specialChars (o : PasswordOptions) : List Char :=
  if o.excludeAmbiguous then
    SPECIAL_CHARS.filter (fun c => !(ambiguousRemoved.contains c))
  else SPECIAL_CHARS

/-- The charset/requiredChars state after the four class blocks of
generatePassword have run, in source order. -/
def genAccFor (o : PasswordOptions) (rng : Nat → Nat) : GenAcc :=
  classStep o.includeSpecialChars (specialChars o) (jsOr1 o.specialCharCount) rng
    (classStep o.includeNumbers (numberChars o) (jsOr1 o.numberCount) rng
      (classStep o.includeLowercase (lowerChars o) 1 rng
        (classStep o.includeUppercase (upperChars o) 1 rng
          { charset := [], required := [], idx := 0 })))

/-- The body of generatePassword up to (and including) building the
un-shuffled `password` variable: the empty-charset and length checks and
the fill loop after the class blocks.  Returns the password before the
final shuffle and the rng cursor. -/
def buildPassword (o : PasswordOptions) (rng : Nat → Nat) :
    Except GenError (List Char × Nat) :=
  let a4 := genAccFor o rng
  if a4.charset = [] then .error .noCharType
  else if o.length < a4.required.length then .error .lengthTooShort
  else
    let fill := drawChars a4.charset (o.length - a4.required.length) rng a4.idx
    .ok (a4.required ++ fill.1, fill.2)

/-- The JS array destructuring swap `[a[i], a[j]] = [a[j], a[i]]`. -/
def listSwap (l : List Char) (i j : Nat) : List Char :=
  if h : i < l.length ∧ j < l.length then
    (l.set i (l.get ⟨j, h.2⟩)).set j (l.get ⟨i, h.1⟩)
  else l

/-- The Fisher–Yates loop of shuffleString, counting its index i down to 1;
k is the rng cursor. -/
def shuffleGo (a : List Char) (i : Nat) (rng : Nat → Nat) (k : Nat) :
    List Char × Nat :=
  match i with
  | 0 => (a, k)
  | Nat.succ m =>
    let j := randomByte rng k % (Nat.succ m + 1)
    shuffleGo (listSwap a (Nat.succ m) j) m rng (k + 1)

/-- Source shuffleString: Fisher–Yates from the last index down, one random
byte per swap. -/
def shuffleString (s : List Char) (rng : Nat → Nat) (k : Nat) :
    List Char × Nat :=
  shuffleGo s (s.length - 1) rng k

/-- Source generatePassword: build, check constraints, fill, then shuffle. -/
def generatePassword (o : PasswordOptions) (rng : Nat → Nat) :
    Except GenError (List Char) :=
  match buildPassword o rng with
  | .error e => .error e
  | .ok r => .ok (shuffleString r.1 rng r.2).1

/-- Total number of required characters drawn before the fill loop, as a
function of the options: one per enabled one-shot class, numberCount||1 for
numbers, specialCharCount||1 for specials. -/
def requiredTotal (o : PasswordOptions) : Nat :=
  (if o.includeUppercase then 1 else 0) +
  (if o.includeLowercase then 1 else 0) +
  (if o.includeNumbers then jsOr1 o.numberCount else 0) +
  (if o.includeSpecialChars then jsOr1 o.specialCharCount else 0)

/-- A fixed rng stream (all zero bytes) used to instantiate theorems on
concrete inputs. -/
def rng0 : Nat → Nat := fun _ => 0

/-- Sample options: every class enabled, two digits and one special
required, length 6. -/
def sampleOptsA : PasswordOptions :=
  { length := 6, includeUppercase := true, includeLowercase := true,
    includeNumbers := true, includeSpecialChars := true,
    numberCount := some 2, specialCharCount := some 1,
    excludeSimilar := false, excludeAmbiguous := false }

/-- Sample options: no class enabled. -/
def sampleOptsB : PasswordOptions :=
  { length := 6, includeUppercase := false, includeLowercase := false,
    includeNumbers := false, includeSpecialChars := false,
    numberCount := none, specialCharCount := none,
    excludeSimilar := false, excludeAmbiguous := false }

/-- Sample options: two classes enabled but target length 1, so the
required minimums exceed the length. -/
def sampleOptsC : PasswordOptions :=
  { length := 1, includeUppercase := true, includeLowercase := true,
    includeNumbers := false, includeSpecialChars := false,
    numberCount := none, specialCharCount := none,
    excludeSimilar := false, excludeAmbiguous := false }

/-- Sample options: lowercase only with excludeSimilar, length 1.  With a
rng stream that yields byte 12, the single draw lands on the letter o,
which the source's excludeSimilar filter fails to remove. -/
def c5FailOptions : PasswordOptions :=
  { length := 1, includeUppercase := false, includeLowercase := true,
    includeNumbers := false, includeSpecialChars := false,
    numberCount := none, specialCharCount := none,
    excludeSimilar := true, excludeAmbiguous := false }

/-- Sample options: numbers enabled with an explicit numberCount of 0,
exercising the `options.numberCount || 1` default. -/
def c9ZeroOptions : PasswordOptions :=
  { length := 4, includeUppercase := false, includeLowercase := true,
    includeNumbers := true, includeSpecialChars := false,
    numberCount := some 0, specialCharCount := some 0,
    excludeSimilar := false, excludeAmbiguous := false }

/-! ## Strength estimator (src/unnamed/part_002)

estimatePasswordStrength computes with JS numbers.  They are modelled as
exact reals extended with the IEEE special values NaN and ±Infinity
(rounding is immaterial to the claims; the special values are not, because
of 0 * log2(0)).  Math.log2 is modelled as the exact base-2 logarithm. -/

/-- A JS number: a finite value (modelled exactly), an infinity, or NaN. -/
inductive JsVal where
  | num (x : ℝ)
  | posInf
  | negInf
  | nan

/-- JS addition. -/
noncomputable def jsAdd : JsVal → JsVal → JsVal
  | .num x, .num y => .num (x + y)
  | .num _, .posInf => .posInf
  | .num _, .negInf => .negInf
  | .posInf, .num _ => .posInf
  | .negInf, .num _ => .negInf
  | .posInf, .posInf => .posInf
  | .negInf, .negInf => .negInf
  | .posInf, .negInf => .nan
  | .negInf, .posInf => .nan
  | .nan, _ => .nan
  | _, .nan => .nan

/-- JS subtraction. -/
noncomputable def jsSub : JsVal → JsVal → JsVal
  | .num x, .num y => .num (x - y)
  | .num _, .posInf => .negInf
  | .num _, .negInf => .posInf
  | .posInf, .num _ => .posInf
  | .negInf, .num _ => .negInf
  | .posInf, .negInf => .posInf
  | .negInf, .posInf => .negInf
  | .posInf, .posInf => .nan
  | .negInf, .negInf => .nan
  | .nan, _ => .nan
  | _, .nan => .nan

/-- JS multiplication; 0 * ±Infinity is NaN. -/
noncomputable def jsMul : JsVal → JsVal → JsVal
  | .num x, .num y => .num (x * y)
  | .num x, .posInf =>
    if x = 0 then .nan else if 0 < x then .posInf else .negInf
  | .num x, .negInf =>
    if x = 0 then .nan else if 0 < x then .negInf else .posInf
  | .posInf, .num y =>
    if y = 0 then .nan else if 0 < y then .posInf else .negInf
  | .negInf, .num y =>
    if y = 0 then .nan else if 0 < y then .negInf else .posInf
  | .posInf, .posInf => .posInf
  | .negInf, .negInf => .posInf
  | .posInf, .negInf => .negInf
  | .negInf, .posInf => .negInf
  | .nan, _ => .nan
  | _, .nan => .nan

/-- JS division (the source only divides by the constant 4). -/
noncomputable def jsDiv : JsVal → JsVal → JsVal
  | .num x, .num y =>
    if y = 0 then (if x = 0 then .nan else if 0 < x then .posInf else .negInf)
    else .num (x / y)
  | .num _, .posInf => .num 0
  | .num _, .negInf => .num 0
  | .posInf, .num y => if y < 0 then .negInf else .posInf
  | .negInf, .num y => if y < 0 then .posInf else .negInf
  | .posInf, .posInf => .nan
  | .negInf, .negInf => .nan
  | .posInf, .negInf => .nan
  | .negInf, .posInf => .nan
  | .nan, _ => .nan
  | _, .nan => .nan

/-- Math.min: NaN-propagating minimum. -/
noncomputable def jsMin : JsVal → JsVal → JsVal
  | .nan, _ => .nan
  | _, .nan => .nan
  | .num x, .num y => .num (min x y)
  | .negInf, _ => .negInf
  | _, .negInf => .negInf
  | .posInf, b => b
  | a, .posInf => a

/-- Math.max: NaN-propagating maximum. -/
noncomputable def jsMax : JsVal → JsVal → JsVal
  | .nan, _ => .nan
  | _, .nan => .nan
  | .num x, .num y => .num (max x y)
  | .posInf, _ => .posInf
  | _, .posInf => .posInf
  | .negInf, b => b
  | a, .negInf => a

/-- The JS < comparison as a boolean; NaN compares false. -/
noncomputable def jsLtB : JsVal → JsVal → Bool
  | .nan, _ => false
  | _, .nan => false
  | .num x, .num y => decide (x < y)
  | .negInf, .negInf => false
  | .negInf, _ => true
  | _, .negInf => false
  | .posInf, _ => false
  | .num _, .posInf => true

/-- Math.log2 on a natural count: -Infinity at 0, the exact logarithm
otherwise. -/
noncomputable def jsLog2 (n : Nat) : JsVal :=
  if n = 0 then .negInf else .num (Real.logb 2 n)

/-- One conditional bonus line `if (test) score += d`. -/
noncomputable def jsAddIf (b : Bool) (v : JsVal) (d : ℝ) : JsVal :=
  if b then jsAdd v (.num d) else v

/-- One conditional penalty line `if (test) score -= d`. -/
noncomputable def jsSubIf (b : Bool) (v : JsVal) (d : ℝ) : JsVal :=
  if b then jsSub v (.num d) else v

/-- The regex test /[a-z]/. -/
def hasLowerRe (s : List Char) : Bool := s.any (fun c => 'a' ≤ c && c ≤ 'z')

/-- The regex test /[A-Z]/. -/
def hasUpperRe (s : List Char) : Bool := s.any (fun c => 'A' ≤ c && c ≤ 'Z')

/-- The regex test /\d/. -/
def hasDigitRe (s : List Char) : Bool := s.any (fun c => '0' ≤ c && c ≤ '9')

/-- The regex test for a character outside a-z, A-Z and digits. -/
def hasOtherRe (s : List Char) : Bool :=
  s.any (fun c => !(('a' ≤ c && c ≤ 'z') || ('A' ≤ c && c ≤ 'Z') ||
                   ('0' ≤ c && c ≤ '9')))

/-- The regex test for three or more equal consecutive characters. -/
def hasTripleRepeat : List Char → Bool
  | a :: b :: c :: rest =>
    (a = b && b = c) || hasTripleRepeat (b :: c :: rest)
  | _ => false

/-- ASCII lowercasing, for the case-insensitive pattern test. -/
def asciiLower (c : Char) : Char :=
  if 'A' ≤ c && c ≤ 'Z' then Char.ofNat (c.toNat + 32) else c

/-- The regex test /123|abc|qwe/i. -/
def hasCommonPattern (s : List Char) : Bool :=
  let low := s.map asciiLower
  decide (List.IsInfix ['1', '2', '3'] low) ||
  decide (List.IsInfix ['a', 'b', 'c'] low) ||
  decide (List.IsInfix ['q', 'w', 'e'] low)

/-- The size of new Set(password): number of distinct characters. -/
def uniqueCount (s : List Char) : Nat := s.dedup.length

/-- The score variable of estimatePasswordStrength just before the final
clamp, line by line from the source: length bonus, class bonuses, pattern
penalties, length thresholds, entropy term. -/
noncomputable def rawScore (s : List Char) : JsVal :=
  let score1 := jsAdd (.num 0) (jsMin (.num ((s.length : ℝ) * 4)) (.num 25))
  let score2 := jsAddIf (hasLowerRe s) score1 5
  let score3 := jsAddIf (hasUpperRe s) score2 5
  let score4 := jsAddIf (hasDigitRe s) score3 5
  let score5 := jsAddIf (hasOtherRe s) score4 10
  let score6 := jsSubIf (hasTripleRepeat s) score5 10
  let score7 := jsSubIf (hasCommonPattern s) score6 10
  let score8 := jsAddIf (decide (16 ≤ s.length)) score7 10
  let score9 := jsAddIf (decide (20 ≤ s.length)) score8 10
  let score10 := jsSubIf (decide (s.length < 8)) score9 20
  let entropy := jsMul (.num (s.length : ℝ)) (jsLog2 (uniqueCount s))
  jsAdd score10 (jsMin (jsDiv entropy (.num 4)) (.num 25))

/-- Source estimatePasswordStrength: the raw score clamped by
Math.max(0, Math.min(100, score)), then the fixed label bands; the result
is the (score, label, color) triple. -/
noncomputable def estimatePasswordStrength (s : List Char) :
    JsVal × String × String :=
  let score12 := jsMax (.num 0) (jsMin (.num 100) (rawScore s))
  if jsLtB score12 (.num 30) then (score12, "Weak", "destructive")
  else if jsLtB score12 (.num 60) then (score12, "Fair", "accent")
  else if jsLtB score12 (.num 80) then (score12, "Good", "primary")
  else (score12, "Strong", "primary")

/-! ## Encryption service (src/unnamed/part_004)

The AES-256 cipher and PBKDF2 key derivation live in the crypto-js
dependency, not in this repository, so they cannot be translated from
source.  They are modelled from the spec (§4.2–4.3): an ideal,
collision-free KDF and an ideal cipher whose decryption inverts encryption
exactly when key and IV match and fails with an authentication error
otherwise.  The random salt and IV drawn inside encryptData are hoisted to
explicit arguments. -/

/-- Modelled from the spec: the PBKDF2-derived key of §4.2 (missing from
src/, it lives in crypto-js).  Deterministic in password and salt, and
ideal in that distinct (password, salt) pairs give distinct keys. -/
structure DerivedKey where
  password : String
  salt : String
deriving DecidableEq, Repr

/-- Source deriveKey, over the ideal KDF model. -/
def deriveKey (masterPassword : String) (salt : String) : DerivedKey :=
  { password := masterPassword, salt := salt }

/-- Modelled from the spec: an opaque ciphertext of the §4.3 cipher
(missing from src/, it lives in crypto-js).  It records, opaquely, the
payload and the key and IV it was produced under. -/
structure CipherText where
  payload : String
  key : DerivedKey
  usedIV : String
deriving DecidableEq, Repr

/-- Failure of the §4.3 cipher (AuthenticationFailed). -/
inductive CryptoError where
  | authenticationFailed
deriving DecidableEq, Repr

/-- Modelled from the spec: §4.3 encrypt. -/
def aesEncrypt (data : String) (key : DerivedKey) (iv : String) : CipherText :=
  { payload := data, key := key, usedIV := iv }

/-- Modelled from the spec: §4.3 decrypt, which returns the plaintext under
the matching key and IV and fails with a distinguishable error otherwise. -/
def aesDecrypt (ct : CipherText) (key : DerivedKey) (iv : String) :
    Except CryptoError String :=
  if ct.key = key ∧ ct.usedIV = iv then .ok ct.payload
  else .error .authenticationFailed

/-- The EncryptedData envelope of the source (data, iv, salt). -/
structure EncryptedData where
  data : CipherText
  iv : String
  salt : String
deriving DecidableEq, Repr

/-- Source encryptData: generate salt and IV (passed explicitly here),
derive the key, encrypt, and package the envelope. -/
def encryptData (data : String) (masterPassword : String) (salt iv : String) :
    EncryptedData :=
  let key := deriveKey masterPassword salt
  { data := aesEncrypt data key iv, iv := iv, salt := salt }

/-- Source decryptData: derive the key from the envelope's salt and the
candidate password, decrypt with the envelope's IV. -/
def decryptData (e : EncryptedData) (masterPassword : String) :
    Except CryptoError String :=
  let key := deriveKey masterPassword e.salt
  aesDecrypt e.data key e.iv

/-- The fixed sentinel plaintext of the master-password validator. -/
def VALIDATION_SENTINEL : String := "MASTER_PASSWORD_VALIDATION"

/-- Source validateMasterPassword: try to decrypt, compare with the
sentinel; the try/catch collapsing every failure to false becomes a match
on the error case. -/
def validateMasterPassword (password : String) (testData : EncryptedData) :
    Bool :=
  match decryptData testData password with
  | .ok s => s == VALIDATION_SENTINEL
  | .error _ => false

/-- Source createValidationData. -/
def createValidationData (masterPassword : String) (salt iv : String) :
    EncryptedData :=
  encryptData VALIDATION_SENTINEL masterPassword salt iv

/-! ## Vault data model and JSON codec (src/unnamed/part_003)

The vault crosses the crypto boundary as the JSON text produced by
JSON.stringify; getVaultData parses it back with JSON.parse.  Both are JS
builtins, so the serializer below implements JSON.stringify on VaultData
values (insertion-order keys, standard string escaping) and the parser
implements JSON.parse restricted to the vault object grammar the
serializer emits. -/

/-- The PasswordEntry interface of the source. -/
structure PasswordEntry where
  id : String
  title : String
  website : String
  username : String
  password : String
  notes : String
  createdAt : String
  updatedAt : String
  tags : List String
deriving DecidableEq, Repr

/-- The VaultData interface of the source. -/
structure VaultData where
  entries : List PasswordEntry
  version : String
deriving DecidableEq, Repr

/-- Opening brace character. -/
def lbrace : Char := Char.ofNat 123

/-- Closing brace character. -/
def rbrace : Char := Char.ofNat 125

/-- Lowercase hex digit of a value below 16. -/
def hexDigit (n : Nat) : Char := "0123456789abcdef".toList.getD n '0'

/-- Numeric value of a lowercase hex digit. -/
def hexVal (c : Char) : Nat :=
  if 97 ≤ c.toNat then c.toNat - 87 else c.toNat - 48

/-- Whether a character is a lowercase hex digit. -/
def isHexDigitChar (c : Char) : Bool :=
  ('0' ≤ c && c ≤ '9') || ('a' ≤ c && c ≤ 'f')

/-- JSON.stringify escaping of one character inside a string literal:
quote, backslash and the named control escapes, a u-escape for the other
control characters, every other character literal. -/
def escChar (c : Char) : List Char :=
  if c = '"' then ['\\', '"']
  else if c = '\\' then ['\\', '\\']
  else if c.toNat = 8 then ['\\', 'b']
  else if c.toNat = 9 then ['\\', 't']
  else if c.toNat = 10 then ['\\', 'n']
  else if c.toNat = 12 then ['\\', 'f']
  else if c.toNat = 13 then ['\\', 'r']
  else if c.toNat < 32 then
    ['\\', 'u', '0', '0', hexDigit (c.toNat / 16), hexDigit (c.toNat % 16)]
  else [c]

/-- JSON.stringify escaping of a character sequence. -/
def escape : List Char → List Char
  | [] => []
  | c :: cs => escChar c ++ escape cs

/-- JSON string literal for a string value. -/
def qstr (s : String) : List Char := '"' :: (escape s.toList ++ ['"'])

/-- Comma-separated concatenation, as JSON.stringify renders arrays. -/
def commaSep : List (List Char) → List Char
  | [] => []
  | [x] => x
  | x :: y :: xs => x ++ ',' :: commaSep (y :: xs)

/-- JSON array of strings. -/
def strArr (ts : List String) : List Char :=
  '[' :: (commaSep (ts.map qstr) ++ [']'])

/-- JSON.stringify of a PasswordEntry, keys in interface order. -/
def entryJson (e : PasswordEntry) : List Char :=
  [lbrace] ++ "\"id\":".toList ++ qstr e.id
  ++ ",\"title\":".toList ++ qstr e.title
  ++ ",\"website\":".toList ++ qstr e.website
  ++ ",\"username\":".toList ++ qstr e.username
  ++ ",\"password\":".toList ++ qstr e.password
  ++ ",\"notes\":".toList ++ qstr e.notes
  ++ ",\"createdAt\":".toList ++ qstr e.createdAt
  ++ ",\"updatedAt\":".toList ++ qstr e.updatedAt
  ++ ",\"tags\":".toList ++ strArr e.tags
  ++ [rbrace]

/-- JSON array of entries. -/
def entriesJson (es : List PasswordEntry) : List Char :=
  '[' :: (commaSep (es.map entryJson) ++ [']'])

/-- JSON.stringify of a VaultData value, as storeVaultData produces it. -/
def vaultJson (v : VaultData) : List Char :=
  [lbrace] ++ "\"entries\":".toList ++ entriesJson v.entries
  ++ ",\"version\":".toList ++ qstr v.version
  ++ [rbrace]

/-- The jsonData variable of storeVaultData: JSON.stringify(vaultData). -/
def stringifyVaultData (v : VaultData) : String := String.mk (vaultJson v)

/-- The labeled-field section of an entry object: each label followed by
the JSON string literal of its value. -/
def fieldsRepr : List (List Char) → List String → List Char
  | lab :: labs, v :: vs => lab ++ (qstr v ++ fieldsRepr labs vs)
  | _, _ => []

/-- Fuel bound for parsing an entries array: one unit per entry plus its
tag count. -/
def tagsBound (es : List PasswordEntry) : Nat :=
  (es.map (fun e => e.tags.length + 1)).sum

/-- Consume an expected literal text from the front of the input. -/
def expects : List Char → List Char → Option (List Char)
  | [], l => some l
  | p :: ps, c :: cs => if c = p then expects ps cs else none
  | _ :: _, [] => none

/-- Parse the body of a JSON string literal up to its closing quote,
undoing escChar; raw control characters are rejected as JSON.parse does. -/
def parseStrBody : List Char → Option (List Char × List Char)
  | [] => none
  | c :: cs =>
    if c = '"' then some ([], cs)
    else if c = '\\' then
      match cs with
      | [] => none
      | e :: cs2 =>
        if e = 'u' then
          match cs2 with
          | h1 :: h2 :: h3 :: h4 :: cs3 =>
            if isHexDigitChar h1 && isHexDigitChar h2 &&
               isHexDigitChar h3 && isHexDigitChar h4 then
              match parseStrBody cs3 with
              | some (out, rest) =>
                some (Char.ofNat
                  (hexVal h1 * 4096 + hexVal h2 * 256 +
                   hexVal h3 * 16 + hexVal h4) :: out, rest)
              | none => none
            else none
          | _ => none
        else
          match
            (if e = '"' then some '"'
             else if e = '\\' then some '\\'
             else if e = 'b' then some (Char.ofNat 8)
             else if e = 't' then some (Char.ofNat 9)
             else if e = 'n' then some (Char.ofNat 10)
             else if e = 'f' then some (Char.ofNat 12)
             else if e = 'r' then some (Char.ofNat 13)
             else none) with
          | some u =>
            match parseStrBody cs2 with
            | some (out, rest) => some (u :: out, rest)
            | none => none
          | none => none
    else if c.toNat < 32 then none
    else
      match parseStrBody cs with
      | some (out, rest) => some (c :: out, rest)
      | none => none

/-- Parse a JSON string literal into a String value. -/
def parseQStr (l : List Char) : Option (String × List Char) :=
  match l with
  | '"' :: rest => (parseStrBody rest).map (fun p => (String.mk p.1, p.2))
  | _ => none

/-- Parse the items of a nonempty JSON string array after its opening
bracket; fuel bounds the number of items. -/
def parseStrItems (fuel : Nat) (l : List Char) :
    Option (List String × List Char) :=
  match fuel with
  | 0 => none
  | Nat.succ f =>
    match parseQStr l with
    | none => none
    | some (s, rest) =>
      match rest with
      | ',' :: r2 =>
        match parseStrItems f r2 with
        | some (ss, r3) => some (s :: ss, r3)
        | none => none
      | ']' :: r2 => some ([s], r2)
      | _ => none

/-- Parse a JSON array of strings. -/
def parseStrList (fuel : Nat) (l : List Char) :
    Option (List String × List Char) :=
  match l with
  | '[' :: ']' :: rest => some ([], rest)
  | '[' :: rest => parseStrItems fuel rest
  | _ => none

/-- Labels of the eight string fields of an entry object, in the
serializer's key order. -/
def fieldLabels : List (List Char) :=
  ["\"id\":".toList, ",\"title\":".toList, ",\"website\":".toList,
   ",\"username\":".toList, ",\"password\":".toList, ",\"notes\":".toList,
   ",\"createdAt\":".toList, ",\"updatedAt\":".toList]

/-- Parse a sequence of labeled string fields. -/
def parseFields : List (List Char) → List Char →
    Option (List String × List Char)
  | [], l => some ([], l)
  | lab :: labs, l => do
    let l1 ← expects lab l
    let q ← parseQStr l1
    let r ← parseFields labs q.2
    some (q.1 :: r.1, r.2)

/-- Parse one entry object, keys in the serializer's order. -/
def parseEntry (fuel : Nat) (l : List Char) :
    Option (PasswordEntry × List Char) := do
  let l0 ← expects [lbrace] l
  let fs ← parseFields fieldLabels l0
  let l9 ← expects ",\"tags\":".toList fs.2
  let qt ← parseStrList fuel l9
  let l10 ← expects [rbrace] qt.2
  match fs.1 with
  | [i, t, w, u, p, n, ca, ua] =>
    some ({ id := i, title := t, website := w, username := u,
            password := p, notes := n, createdAt := ca, updatedAt := ua,
            tags := qt.1 }, l10)
  | _ => none

/-- Parse the items of a nonempty entries array after its opening bracket. -/
def parseEntryItems (fuel : Nat) (l : List Char) :
    Option (List PasswordEntry × List Char) :=
  match fuel with
  | 0 => none
  | Nat.succ f =>
    match parseEntry (Nat.succ f) l with
    | none => none
    | some (e, rest) =>
      match rest with
      | ',' :: r2 =>
        match parseEntryItems f r2 with
        | some (es, r3) => some (e :: es, r3)
        | none => none
      | ']' :: r2 => some ([e], r2)
      | _ => none

/-- Parse a JSON array of entries. -/
def parseEntriesArr (fuel : Nat) (l : List Char) :
    Option (List PasswordEntry × List Char) :=
  match l with
  | '[' :: ']' :: rest => some ([], rest)
  | '[' :: rest => parseEntryItems fuel rest
  | _ => none

/-- Parse the vault object. -/
def parseVaultAux (fuel : Nat) (l : List Char) :
    Option (VaultData × List Char) := do
  let l1 ← expects ([lbrace] ++ "\"entries\":".toList) l
  let es ← parseEntriesArr fuel l1
  let l2 ← expects ",\"version\":".toList es.2
  let q ← parseQStr l2
  let l3 ← expects [rbrace] q.2
  some ({ entries := es.1, version := q.1 }, l3)

/-- JSON.parse of the vault text inside getVaultData: the whole input must
be consumed. -/
def parseVaultData (s : String) : Option VaultData :=
  match parseVaultAux (s.toList.length + 1) s.toList with
  | some (v, []) => some v
  | _ => none

/-! ## Vault codec (storeVaultData / getVaultData minus the key-value
store I/O) -/

/-- The single generic failure of getVaultData (its catch block throws one
fixed error for every failure cause). -/
inductive VaultError where
  | decryptionFailed
deriving DecidableEq, Repr

/-- The cryptographic body of storeVaultData: JSON.stringify the vault and
encrypt it under the master password (spec name sealVault). -/
def sealVault (v : VaultData) (masterPassword : String) (salt iv : String) :
    EncryptedData :=
  encryptData (stringifyVaultData v) masterPassword salt iv

/-- The cryptographic body of getVaultData: decrypt the envelope and
JSON.parse the plaintext, collapsing every failure to the one generic
error (spec name openVault). -/
def openVault (e : EncryptedData) (masterPassword : String) :
    Except VaultError VaultData :=
  match decryptData e masterPassword with
  | .error _ => .error .decryptionFailed
  | .ok s =>
    match parseVaultData s with
    | some v => .ok v
    | none => .error .decryptionFailed

/-! ## Lemmas: random draws -/

theorem getRandomChar_mem (s : List Char) (b : Nat) (h : s ≠ []) :
    getRandomChar s b ∈ s := by
  have hlen : 0 < s.length := List.length_pos.mpr h
  have hb : b % s.length < s.length := Nat.mod_lt _ hlen
  simp only [getRandomChar, List.getD_eq_getElem?_getD,
    List.getElem?_eq_getElem hb, Option.getD_some]
  exact List.getElem_mem hb

theorem drawChars_length (s : List Char) (n : Nat) (rng : Nat → Nat) (i : Nat) :
    (drawChars s n rng i).1.length = n := by
  induction n generalizing i with
  | zero => rfl
  | succ m ih => simp [drawChars, ih]

theorem drawChars_mem (s : List Char) (n : Nat) (rng : Nat → Nat) (i : Nat)
    (hs : s ≠ []) : ∀ c ∈ (drawChars s n rng i).1, c ∈ s := by
  induction n generalizing i with
  | zero => intro c hc; simp [drawChars] at hc
  | succ m ih =>
    intro c hc
    simp only [drawChars, List.mem_cons] at hc
    rcases hc with h | h
    · exact h ▸ getRandomChar_mem s _ hs
    · exact ih (i + 1) c h

theorem drawChars_countP (s : List Char) (n : Nat) (rng : Nat → Nat) (i : Nat)
    (p : Char → Bool) (hs : s ≠ []) (hp : ∀ c ∈ s, p c = true) :
    (drawChars s n rng i).1.countP p = n := by
  have hall : ∀ c ∈ (drawChars s n rng i).1, p c = true :=
    fun c hc => hp c (drawChars_mem s n rng i hs c hc)
  rw [List.countP_eq_length.mpr hall, drawChars_length]

/-! ## Lemmas: the Fisher–Yates shuffle is a permutation -/

theorem count_set_balance (l : List Char) (i : Nat) (h : i < l.length)
    (b a : Char) :
    (l.set i b).count a + (if l[i] = a then 1 else 0) =
      l.count a + (if b = a then 1 else 0) := by
  rw [List.set_eq_take_cons_drop b h]
  conv_rhs => rw [show l = l.take i ++ l[i] :: l.drop (i + 1) by
    conv_lhs => rw [← List.take_append_drop i l]
    rw [List.drop_eq_getElem_cons h]]
  simp only [List.count_append, List.count_cons]
  split_ifs <;> simp_all <;> omega

theorem listSwap_perm (l : List Char) (i j : Nat) :
    List.Perm (listSwap l i j) l := by
  by_cases h : i < l.length ∧ j < l.length
  · obtain ⟨hi, hj⟩ := h
    have hrw : listSwap l i j = (l.set i l[j]).set j l[i] := by
      simp [listSwap, hi, hj]
    rw [hrw, List.perm_iff_count]
    intro a
    have hj2 : j < (l.set i l[j]).length := by simpa using hj
    have hji : (l.set i l[j])[j] = l[j] := by
      rcases eq_or_ne i j with rfl | hij
      · simp
      · simp [List.getElem_set_ne hij]
    have h1 := count_set_balance (l.set i l[j]) j hj2 (l[i]) a
    rw [hji] at h1
    have h2 := count_set_balance l i hi (l[j]) a
    split_ifs at h1 h2 <;> omega
  · have hrw : listSwap l i j = l := by simp [listSwap, h]
    rw [hrw]

theorem shuffleGo_perm (i : Nat) (a : List Char) (rng : Nat → Nat) (k : Nat) :
    List.Perm (shuffleGo a i rng k).1 a := by
  induction i generalizing a k with
  | zero => exact List.Perm.refl a
  | succ m ih =>
    exact List.Perm.trans (ih _ _) (listSwap_perm a (Nat.succ m) _)

theorem shuffleString_perm (s : List Char) (rng : Nat → Nat) (k : Nat) :
    List.Perm (shuffleString s rng k).1 s :=
  shuffleGo_perm _ s rng k

/-! ## Lemmas: generator structure -/

theorem classStep_charset (e : Bool) (alph : List Char) (n : Nat)
    (rng : Nat → Nat) (acc : GenAcc) :
    (classStep e alph n rng acc).charset =
      acc.charset ++ (if e then alph else []) := by
  cases e <;> simp [classStep]

theorem classStep_required (e : Bool) (alph : List Char) (n : Nat)
    (rng : Nat → Nat) (acc : GenAcc) :
    (classStep e alph n rng acc).required =
      acc.required ++ (if e then (drawChars alph n rng acc.idx).1 else []) := by
  cases e <;> simp [classStep]

theorem upperChars_ne_nil (o : PasswordOptions) : upperChars o ≠ [] := by
  unfold upperChars; split <;> decide

theorem lowerChars_ne_nil (o : PasswordOptions) : lowerChars o ≠ [] := by
  unfold lowerChars; split <;> decide

theorem numberChars_ne_nil (o : PasswordOptions) : numberChars o ≠ [] := by
  unfold numberChars; split <;> decide

theorem specialChars_ne_nil (o : PasswordOptions) : specialChars o ≠ [] := by
  unfold specialChars; split <;> decide

theorem upperChars_subset (o : PasswordOptions) :
    ∀ c ∈ upperChars o, c ∈ UPPERCASE := by
  unfold upperChars; split
  · exact fun c hc => List.mem_of_mem_filter hc
  · exact fun c hc => hc

theorem lowerChars_subset (o : PasswordOptions) :
    ∀ c ∈ lowerChars o, c ∈ LOWERCASE := by
  unfold lowerChars; split
  · exact fun c hc => List.mem_of_mem_filter hc
  · exact fun c hc => hc

theorem numberChars_subset (o : PasswordOptions) :
    ∀ c ∈ numberChars o, c ∈ NUMBERS := by
  unfold numberChars; split
  · exact fun c hc => List.mem_of_mem_filter hc
  · exact fun c hc => hc

theorem specialChars_subset (o : PasswordOptions) :
    ∀ c ∈ specialChars o, c ∈ SPECIAL_CHARS := by
  unfold specialChars; split
  · exact fun c hc => List.mem_of_mem_filter hc
  · exact fun c hc => hc

theorem genAccFor_charset (o : PasswordOptions) (rng : Nat → Nat) :
    (genAccFor o rng).charset =
      (if o.includeUppercase then upperChars o else []) ++
      ((if o.includeLowercase then lowerChars o else []) ++
       ((if o.includeNumbers then numberChars o else []) ++
        (if o.includeSpecialChars then specialChars o else []))) := by
  simp [genAccFor, classStep_charset, List.append_assoc]

theorem genAccFor_required_length (o : PasswordOptions) (rng : Nat → Nat) :
    (genAccFor o rng).required.length = requiredTotal o := by
  cases hu : o.includeUppercase <;> cases hl : o.includeLowercase <;>
    cases hn : o.includeNumbers <;> cases hs : o.includeSpecialChars <;>
    simp [genAccFor, classStep_required, hu, hl, hn, hs, drawChars_length,
      requiredTotal] <;> omega

theorem genAccFor_charset_ne (o : PasswordOptions) (rng : Nat → Nat)
    (h : o.includeUppercase = true ∨ o.includeLowercase = true ∨
         o.includeNumbers = true ∨ o.includeSpecialChars = true) :
    (genAccFor o rng).charset ≠ [] := by
  intro hc
  rw [genAccFor_charset] at hc
  rcases h with h | h | h | h <;>
    simp [h, List.append_eq_nil, upperChars_ne_nil, lowerChars_ne_nil,
      numberChars_ne_nil, specialChars_ne_nil] at hc

theorem countP_genAccFor_num (o : PasswordOptions) (rng : Nat → Nat)
    (p : Char → Bool) (h : o.includeNumbers = true)
    (hp : ∀ c ∈ numberChars o, p c = true) :
    jsOr1 o.numberCount ≤ (genAccFor o rng).required.countP p := by
  have hd : ∀ k, ((drawChars (numberChars o) (jsOr1 o.numberCount) rng k).1.countP p) =
      jsOr1 o.numberCount :=
    fun k => drawChars_countP _ _ _ _ p (numberChars_ne_nil o) hp
  simp only [genAccFor, classStep_required, List.countP_append, h, if_true]
  simp only [hd]
  omega

theorem countP_genAccFor_special (o : PasswordOptions) (rng : Nat → Nat)
    (p : Char → Bool) (h : o.includeSpecialChars = true)
    (hp : ∀ c ∈ specialChars o, p c = true) :
    jsOr1 o.specialCharCount ≤ (genAccFor o rng).required.countP p := by
  have hd : ∀ k, ((drawChars (specialChars o) (jsOr1 o.specialCharCount) rng k).1.countP p) =
      jsOr1 o.specialCharCount :=
    fun k => drawChars_countP _ _ _ _ p (specialChars_ne_nil o) hp
  simp only [genAccFor, classStep_required, List.countP_append, h, if_true]
  simp only [hd]
  omega

theorem countP_genAccFor_up (o : PasswordOptions) (rng : Nat → Nat)
    (p : Char → Bool) (h : o.includeUppercase = true)
    (hp : ∀ c ∈ upperChars o, p c = true) :
    1 ≤ (genAccFor o rng).required.countP p := by
  have hd : ∀ k, ((drawChars (upperChars o) 1 rng k).1.countP p) = 1 :=
    fun k => drawChars_countP _ _ _ _ p (upperChars_ne_nil o) hp
  simp only [genAccFor, classStep_required, List.countP_append, h, if_true]
  simp only [hd]
  omega

theorem countP_genAccFor_low (o : PasswordOptions) (rng : Nat → Nat)
    (p : Char → Bool) (h : o.includeLowercase = true)
    (hp : ∀ c ∈ lowerChars o, p c = true) :
    1 ≤ (genAccFor o rng).required.countP p := by
  have hd : ∀ k, ((drawChars (lowerChars o) 1 rng k).1.countP p) = 1 :=
    fun k => drawChars_countP _ _ _ _ p (lowerChars_ne_nil o) hp
  simp only [genAccFor, classStep_required, List.countP_append, h, if_true]
  simp only [hd]
  omega

theorem buildPassword_ok_shape (o : PasswordOptions) (rng : Nat → Nat)
    (pw : List Char) (k : Nat) (h : buildPassword o rng = .ok (pw, k)) :
    pw = (genAccFor o rng).required ++
      (drawChars (genAccFor o rng).charset
        (o.length - (genAccFor o rng).required.length) rng
        (genAccFor o rng).idx).1 ∧
    (genAccFor o rng).required.length ≤ o.length := by
  simp only [buildPassword] at h
  split at h
  · exact absurd h (by simp)
  · split at h
    · exact absurd h (by simp)
    · refine ⟨?_, by omega⟩
      injection h with h2
      injection h2 with h3 h4
      exact h3.symm

theorem buildPassword_ok_length (o : PasswordOptions) (rng : Nat → Nat)
    (pw : List Char) (k : Nat) (h : buildPassword o rng = .ok (pw, k)) :
    pw.length = o.length := by
  obtain ⟨hsh, hle⟩ := buildPassword_ok_shape o rng pw k h
  rw [hsh, List.length_append, drawChars_length]
  omega

theorem buildPassword_noClass (o : PasswordOptions) (rng : Nat → Nat)
    (hu : o.includeUppercase = false) (hl : o.includeLowercase = false)
    (hn : o.includeNumbers = false) (hs : o.includeSpecialChars = false) :
    buildPassword o rng = .error .noCharType := by
  simp [buildPassword, genAccFor, classStep, hu, hl, hn, hs]

theorem buildPassword_tooShort (o : PasswordOptions) (rng : Nat → Nat)
    (h : o.includeUppercase = true ∨ o.includeLowercase = true ∨
         o.includeNumbers = true ∨ o.includeSpecialChars = true)
    (hlen : o.length < requiredTotal o) :
    buildPassword o rng = .error .lengthTooShort := by
  simp only [buildPassword]
  rw [if_neg (genAccFor_charset_ne o rng h),
    if_pos (by rw [genAccFor_required_length]; exact hlen)]

theorem generatePassword_ok_inv (o : PasswordOptions) (rng : Nat → Nat)
    (r : List Char) (h : generatePassword o rng = .ok r) :
    ∃ pw k, buildPassword o rng = .ok (pw, k) ∧ List.Perm r pw := by
  unfold generatePassword at h
  split at h
  · exact absurd h (by simp)
  case _ p heq =>
    refine ⟨p.1, p.2, ?_, ?_⟩
    · rw [heq]
    · injection h with h2
      exact h2 ▸ shuffleString_perm p.1 rng p.2

theorem jsOr1_ge_one (v : Option Nat) : 1 ≤ jsOr1 v := by
  rcases v with _ | n
  · simp [jsOr1]
  · rcases n with _ | m <;> simp [jsOr1]

theorem jsOr1_some (n : Nat) (h : 1 ≤ n) : jsOr1 (some n) = n := by
  rcases n with _ | m
  · omega
  · rfl

theorem generatePassword_countP_required_le (o : PasswordOptions)
    (rng : Nat → Nat) (r : List Char) (p : Char → Bool)
    (h : generatePassword o rng = .ok r) :
    (genAccFor o rng).required.countP p ≤ r.countP p := by
  obtain ⟨pw, k, hb, hperm⟩ := generatePassword_ok_inv o rng r h
  obtain ⟨hsh, _⟩ := buildPassword_ok_shape o rng pw k hb
  rw [hperm.countP_eq, hsh, List.countP_append]
  omega

/-! ## Claim theorems: password generator -/

/-- C4: whenever generatePassword succeeds the result has exactly the
requested length; with no class enabled it fails with the
no-character-type constraint error; and when the required minimum counts
exceed the target length (with at least one class enabled) it fails with
the length-too-short constraint error. -/
theorem claimC4 (o : PasswordOptions) (rng : Nat → Nat) :
    (∀ r, generatePassword o rng = .ok r → r.length = o.length) ∧
    (o.includeUppercase = false → o.includeLowercase = false →
      o.includeNumbers = false → o.includeSpecialChars = false →
      generatePassword o rng = .error .noCharType) ∧
    ((o.includeUppercase = true ∨ o.includeLowercase = true ∨
      o.includeNumbers = true ∨ o.includeSpecialChars = true) →
      o.length < requiredTotal o →
      generatePassword o rng = .error .lengthTooShort) := by
  refine ⟨?_, ?_, ?_⟩
  · intro r h
    obtain ⟨pw, k, hb, hperm⟩ := generatePassword_ok_inv o rng r h
    rw [hperm.length_eq]
    exact buildPassword_ok_length o rng pw k hb
  · intro hu hl hn hs
    unfold generatePassword
    rw [buildPassword_noClass o rng hu hl hn hs]
  · intro h hlen
    unfold generatePassword
    rw [buildPassword_tooShort o rng h hlen]

/-- Witness for C4 at concrete inputs: a successful run of length 6, a run
with no class enabled, and a run whose minimums exceed the length. -/
theorem claimC4_witness :
    (['a', '0', '0', '!', 'A', 'A'] : List Char).length = sampleOptsA.length ∧
    generatePassword sampleOptsB rng0 = .error .noCharType ∧
    generatePassword sampleOptsC rng0 = .error .lengthTooShort :=
  ⟨(claimC4 sampleOptsA rng0).1 _ rfl,
   (claimC4 sampleOptsB rng0).2.1 rfl rfl rfl rfl,
   (claimC4 sampleOptsC rng0).2.2 (Or.inl rfl) (by decide)⟩

/-- C5 (code bug evidence): with excludeSimilar set, lowercase only and
length 1, the rng stream that always yields byte 12 produces the password
"o" — a character of the source's own SIMILAR_CHARS list, which the claim
says is excluded. -/
theorem claimC5 :
    generatePassword c5FailOptions (fun _ => 12) = .ok ['o'] ∧
    'o' ∈ SIMILAR_CHARS :=
  ⟨rfl, by decide⟩

/-- C8: on success, the password carries at least numberCount digits when
numbers are enabled with an explicit positive count, at least
specialCharCount specials when specials are enabled with an explicit
positive count, and at least one character of each other enabled class. -/
theorem claimC8 (o : PasswordOptions) (rng : Nat → Nat) (r : List Char)
    (h : generatePassword o rng = .ok r) :
    (∀ n, o.includeNumbers = true → o.numberCount = some n → 1 ≤ n →
      n ≤ r.countP (fun c => decide (c ∈ NUMBERS))) ∧
    (∀ m, o.includeSpecialChars = true → o.specialCharCount = some m → 1 ≤ m →
      m ≤ r.countP (fun c => decide (c ∈ SPECIAL_CHARS))) ∧
    (o.includeUppercase = true → ∃ c ∈ r, c ∈ UPPERCASE) ∧
    (o.includeLowercase = true → ∃ c ∈ r, c ∈ LOWERCASE) := by
  refine ⟨?_, ?_, ?_, ?_⟩
  · intro n hn hc hpos
    have hreq := countP_genAccFor_num o rng
      (fun c => decide (c ∈ NUMBERS)) hn
      (fun c hc2 => decide_eq_true (numberChars_subset o c hc2))
    rw [hc, jsOr1_some n hpos] at hreq
    exact le_trans hreq (generatePassword_countP_required_le o rng r _ h)
  · intro m hs hc hpos
    have hreq := countP_genAccFor_special o rng
      (fun c => decide (c ∈ SPECIAL_CHARS)) hs
      (fun c hc2 => decide_eq_true (specialChars_subset o c hc2))
    rw [hc, jsOr1_some m hpos] at hreq
    exact le_trans hreq (generatePassword_countP_required_le o rng r _ h)
  · intro hu
    have hreq := countP_genAccFor_up o rng
      (fun c => decide (c ∈ UPPERCASE)) hu
      (fun c hc2 => decide_eq_true (upperChars_subset o c hc2))
    have hle := le_trans hreq (generatePassword_countP_required_le o rng r _ h)
    have hpos : 0 < r.countP (fun c => decide (c ∈ UPPERCASE)) := by omega
    simpa using List.countP_pos_iff.mp hpos
  · intro hl
    have hreq := countP_genAccFor_low o rng
      (fun c => decide (c ∈ LOWERCASE)) hl
      (fun c hc2 => decide_eq_true (lowerChars_subset o c hc2))
    have hle := le_trans hreq (generatePassword_countP_required_le o rng r _ h)
    have hpos : 0 < r.countP (fun c => decide (c ∈ LOWERCASE)) := by omega
    simpa using List.countP_pos_iff.mp hpos

/-- Witness for C8 at a concrete run: two digits, one special, one
uppercase and one lowercase letter are present. -/
theorem claimC8_witness :
    2 ≤ (['a', '0', '0', '!', 'A', 'A'] : List Char).countP
        (fun c => decide (c ∈ NUMBERS)) ∧
    1 ≤ (['a', '0', '0', '!', 'A', 'A'] : List Char).countP
        (fun c => decide (c ∈ SPECIAL_CHARS)) ∧
    (∃ c ∈ (['a', '0', '0', '!', 'A', 'A'] : List Char), c ∈ UPPERCASE) ∧
    (∃ c ∈ (['a', '0', '0', '!', 'A', 'A'] : List Char), c ∈ LOWERCASE) :=
  ⟨(claimC8 sampleOptsA rng0 _ rfl).1 2 rfl rfl (by decide),
   (claimC8 sampleOptsA rng0 _ rfl).2.1 1 rfl rfl (by decide),
   (claimC8 sampleOptsA rng0 _ rfl).2.2.1 rfl,
   (claimC8 sampleOptsA rng0 _ rfl).2.2.2 rfl⟩

/-- C9: an explicit count of 0 behaves exactly like an omitted count
(both default to 1 through the falsy-or), so an enabled class can never
have an effective minimum of zero, and an enabled numbers class always
contributes at least one digit on success. -/
theorem claimC9 (o : PasswordOptions) (rng : Nat → Nat) :
    (o.numberCount = some 0 ∨ o.numberCount = none →
      generatePassword o rng =
        generatePassword { o with numberCount := some 1 } rng) ∧
    (o.specialCharCount = some 0 ∨ o.specialCharCount = none →
      generatePassword o rng =
        generatePassword { o with specialCharCount := some 1 } rng) ∧
    (o.includeNumbers = true → ∀ r, generatePassword o rng = .ok r →
      1 ≤ r.countP (fun c => decide (c ∈ NUMBERS))) := by
  refine ⟨?_, ?_, ?_⟩
  · intro h
    have hj : jsOr1 o.numberCount = jsOr1 (some 1) := by
      rcases h with h | h <;> rw [h] <;> rfl
    simp [generatePassword, buildPassword, genAccFor, upperChars,
      lowerChars, numberChars, specialChars, hj]
  · intro h
    have hj : jsOr1 o.specialCharCount = jsOr1 (some 1) := by
      rcases h with h | h <;> rw [h] <;> rfl
    simp [generatePassword, buildPassword, genAccFor, upperChars,
      lowerChars, numberChars, specialChars, hj]
  · intro hn r h
    have hreq := countP_genAccFor_num o rng
      (fun c => decide (c ∈ NUMBERS)) hn
      (fun c hc2 => decide_eq_true (numberChars_subset o c hc2))
    have h1 := jsOr1_ge_one o.numberCount
    have := generatePassword_countP_required_le o rng r
      (fun c => decide (c ∈ NUMBERS)) h
    omega

/-- Witness for C9 at a concrete option set with numberCount = 0. -/
theorem claimC9_witness :
    (generatePassword c9ZeroOptions rng0 =
      generatePassword { c9ZeroOptions with numberCount := some 1 } rng0) ∧
    (generatePassword c9ZeroOptions rng0 =
      generatePassword { c9ZeroOptions with specialCharCount := some 1 } rng0) ∧
    1 ≤ (['0', 'a', 'a', 'a'] : List Char).countP
        (fun c => decide (c ∈ NUMBERS)) :=
  ⟨(claimC9 c9ZeroOptions rng0).1 (Or.inl rfl),
   (claimC9 c9ZeroOptions rng0).2.1 (Or.inl rfl),
   (claimC9 c9ZeroOptions rng0).2.2 rfl _ rfl⟩

/-- C10: shuffleString returns a permutation of its input, and on success
the final password of generatePassword is exactly the shuffle — hence a
rearrangement — of the required-plus-fill character sequence built before
the shuffle. -/
theorem claimC10 :
    (∀ (s : List Char) (rng : Nat → Nat) (k : Nat),
      List.Perm (shuffleString s rng k).1 s) ∧
    (∀ (o : PasswordOptions) (rng : Nat → Nat) (pw : List Char) (k : Nat),
      buildPassword o rng = .ok (pw, k) →
      generatePassword o rng = .ok (shuffleString pw rng k).1 ∧
      List.Perm (shuffleString pw rng k).1 pw) := by
  constructor
  · exact shuffleString_perm
  · intro o rng pw k hb
    constructor
    · unfold generatePassword
      rw [hb]
    · exact shuffleString_perm pw rng k

/-- Witness for C10 at concrete inputs. -/
theorem claimC10_witness :
    List.Perm (shuffleString ['a', 'b', 'c'] (fun _ => 1) 0).1
      ['a', 'b', 'c'] ∧
    (generatePassword sampleOptsA rng0 =
      .ok (shuffleString ['A', 'a', '0', '0', '!', 'A'] rng0 6).1 ∧
     List.Perm (shuffleString ['A', 'a', '0', '0', '!', 'A'] rng0 6).1
       ['A', 'a', '0', '0', '!', 'A']) :=
  ⟨claimC10.1 ['a', 'b', 'c'] (fun _ => 1) 0,
   claimC10.2 sampleOptsA rng0 ['A', 'a', '0', '0', '!', 'A'] 6 rfl⟩

/-! ## Lemmas: JSON codec round-trip -/

theorem expects_append (p l : List Char) : expects p (p ++ l) = some l := by
  induction p with
  | nil => rfl
  | cons c cs ih => simp [expects, ih]

theorem hexVal_hexDigit (n : Nat) (h : n < 16) :
    hexVal (hexDigit n) = n := by
  interval_cases n <;> decide

theorem isHexDigitChar_hexDigit (n : Nat) (h : n < 16) :
    isHexDigitChar (hexDigit n) = true := by
  interval_cases n <;> decide

theorem parseStrBody_escape (cs rest : List Char) :
    parseStrBody (escape cs ++ ('"' :: rest)) = some (cs, rest) := by
  induction cs with
  | nil =>
    show parseStrBody ('"' :: rest) = _
    rw [parseStrBody.eq_def]
    simp
  | cons c cs ih =>
    show parseStrBody ((escChar c ++ escape cs) ++ ('"' :: rest)) = _
    rw [List.append_assoc]
    by_cases h1 : c = '"'
    · have he : escChar c = ['\\', '"'] := by simp [escChar, h1]
      rw [he, parseStrBody.eq_def]
      simp [ih, h1]
    · by_cases h2 : c = '\\'
      · have he : escChar c = ['\\', '\\'] := by simp [escChar, h1, h2]
        rw [he, parseStrBody.eq_def]
        simp [ih, h2]
      · by_cases h3 : c.toNat = 8
        · have he : escChar c = ['\\', 'b'] := by simp [escChar, h1, h2, h3]
          have hc : c = Char.ofNat 8 := by rw [← Char.ofNat_toNat c, h3]
          rw [he, parseStrBody.eq_def]
          simp [ih, hc]
        · by_cases h4 : c.toNat = 9
          · have he : escChar c = ['\\', 't'] := by
              simp [escChar, h1, h2, h3, h4]
            have hc : c = Char.ofNat 9 := by rw [← Char.ofNat_toNat c, h4]
            rw [he, parseStrBody.eq_def]
            simp [ih, hc]
          · by_cases h5 : c.toNat = 10
            · have he : escChar c = ['\\', 'n'] := by
                simp [escChar, h1, h2, h3, h4, h5]
              have hc : c = Char.ofNat 10 := by rw [← Char.ofNat_toNat c, h5]
              rw [he, parseStrBody.eq_def]
              simp [ih, hc]
            · by_cases h6 : c.toNat = 12
              · have he : escChar c = ['\\', 'f'] := by
                  simp [escChar, h1, h2, h3, h4, h5, h6]
                have hc : c = Char.ofNat 12 := by
                  rw [← Char.ofNat_toNat c, h6]
                rw [he, parseStrBody.eq_def]
                simp [ih, hc]
              · by_cases h7 : c.toNat = 13
                · have he : escChar c = ['\\', 'r'] := by
                    simp [escChar, h1, h2, h3, h4, h5, h6, h7]
                  have hc : c = Char.ofNat 13 := by
                    rw [← Char.ofNat_toNat c, h7]
                  rw [he, parseStrBody.eq_def]
                  simp [ih, hc]
                · by_cases h8 : c.toNat < 32
                  · have he : escChar c = ['\\', 'u', '0', '0',
                        hexDigit (c.toNat / 16), hexDigit (c.toNat % 16)] := by
                      simp [escChar, h1, h2, h3, h4, h5, h6, h7, h8]
                    have hdiv : c.toNat / 16 < 16 := by omega
                    have hmod : c.toNat % 16 < 16 := Nat.mod_lt _ (by omega)
                    have hh1 : isHexDigitChar (hexDigit (c.toNat / 16)) = true :=
                      isHexDigitChar_hexDigit _ hdiv
                    have hh2 : isHexDigitChar (hexDigit (c.toNat % 16)) = true :=
                      isHexDigitChar_hexDigit _ hmod
                    have hz : isHexDigitChar '0' = true := by decide
                    have hv0 : hexVal '0' = 0 := by decide
                    have hval : hexVal '0' * 4096 + hexVal '0' * 256 +
                        hexVal (hexDigit (c.toNat / 16)) * 16 +
                        hexVal (hexDigit (c.toNat % 16)) = c.toNat := by
                      rw [hexVal_hexDigit _ hdiv, hexVal_hexDigit _ hmod, hv0]
                      omega
                    rw [he, parseStrBody.eq_def]
                    simp [ih, hh1, hh2, hz, hval, Char.ofNat_toNat]
                  · have he : escChar c = [c] := by
                      simp [escChar, h1, h2, h3, h4, h5, h6, h7, h8]
                    rw [he, parseStrBody.eq_def]
                    simp [ih, h1, h2, h8]

theorem parseQStr_qstr (s : String) (rest : List Char) :
    parseQStr (qstr s ++ rest) = some (s, rest) := by
  have h : qstr s ++ rest = '"' :: (escape s.toList ++ ('"' :: rest)) := by
    simp [qstr]
  rw [h]
  simp [parseQStr, parseStrBody_escape]

theorem qstr_length_ge (s : String) : 2 ≤ (qstr s).length := by
  simp [qstr]

theorem parseStrItems_round (ts : List String) (hne : ts ≠ [])
    (fuel : Nat) (hf : ts.length ≤ fuel) (rest : List Char) :
    parseStrItems fuel (commaSep (ts.map qstr) ++ (']' :: rest)) =
      some (ts, rest) := by
  induction ts generalizing fuel rest with
  | nil => exact absurd rfl hne
  | cons t ts ih =>
    obtain ⟨f, rfl⟩ : ∃ f, fuel = f + 1 := by
      cases fuel
      · simp at hf
      · exact ⟨_, rfl⟩
    cases ts with
    | nil =>
      show parseStrItems (f + 1) (qstr t ++ (']' :: rest)) = _
      simp only [parseStrItems, parseQStr_qstr]
    | cons t2 ts2 =>
      have hshape : commaSep ((t :: t2 :: ts2).map qstr) ++ (']' :: rest) =
          qstr t ++ (',' :: (commaSep ((t2 :: ts2).map qstr) ++
            (']' :: rest))) := by
        simp [commaSep]
      rw [hshape]
      have hrec := ih (by simp) f (by simp at hf ⊢; omega) rest
      simp only [parseStrItems, parseQStr_qstr]
      rw [hrec]

theorem parseStrList_round (ts : List String) (fuel : Nat)
    (hf : ts.length ≤ fuel) (rest : List Char) :
    parseStrList fuel (strArr ts ++ rest) = some (ts, rest) := by
  cases ts with
  | nil => simp [strArr, commaSep, parseStrList]
  | cons t ts =>
    have hshape : strArr (t :: ts) ++ rest =
        '[' :: (commaSep ((t :: ts).map qstr) ++ (']' :: rest)) := by
      simp [strArr]
    rw [hshape]
    have hrec := parseStrItems_round (t :: ts) (by simp) fuel hf rest
    cases ts with
    | nil => simpa [parseStrList, commaSep, qstr] using hrec
    | cons t2 ts2 => simpa [parseStrList, commaSep, qstr] using hrec

theorem parseFields_round (labs : List (List Char)) (vals : List String)
    (rest : List Char) (h : labs.length = vals.length) :
    parseFields labs (fieldsRepr labs vals ++ rest) = some (vals, rest) := by
  induction labs generalizing vals rest with
  | nil =>
    cases vals with
    | nil => simp [fieldsRepr, parseFields]
    | cons v vs => simp at h
  | cons lab labs ih =>
    cases vals with
    | nil => simp at h
    | cons v vs =>
      show parseFields (lab :: labs)
        ((lab ++ (qstr v ++ fieldsRepr labs vs)) ++ rest) = _
      rw [List.append_assoc, List.append_assoc]
      have hrec := ih vs rest (by simpa using h)
      simp [parseFields, expects_append, parseQStr_qstr, hrec]

theorem entryJson_decomp (e : PasswordEntry) (rest : List Char) :
    entryJson e ++ rest =
      [lbrace] ++ (fieldsRepr fieldLabels
        [e.id, e.title, e.website, e.username, e.password, e.notes,
         e.createdAt, e.updatedAt] ++
        (",\"tags\":".toList ++ (strArr e.tags ++ ([rbrace] ++ rest)))) := by
  simp [entryJson, fieldsRepr, fieldLabels, List.append_assoc]

theorem parseEntry_round (e : PasswordEntry) (fuel : Nat)
    (hf : e.tags.length ≤ fuel) (rest : List Char) :
    parseEntry fuel (entryJson e ++ rest) = some (e, rest) := by
  rw [entryJson_decomp]
  have hfields := parseFields_round fieldLabels
    [e.id, e.title, e.website, e.username, e.password, e.notes,
     e.createdAt, e.updatedAt]
    (",\"tags\":".toList ++ (strArr e.tags ++ ([rbrace] ++ rest))) (by rfl)
  have hsl := parseStrList_round e.tags fuel hf ([rbrace] ++ rest)
  simp only [parseEntry]
  rw [expects_append [lbrace]]
  simp only [Option.bind_eq_bind, Option.some_bind]
  rw [hfields]
  simp only [Option.bind_eq_bind, Option.some_bind]
  rw [expects_append]
  simp only [Option.bind_eq_bind, Option.some_bind]
  rw [hsl]
  simp only [Option.bind_eq_bind, Option.some_bind]
  rw [expects_append]
  simp only [Option.bind_eq_bind, Option.some_bind]

theorem parseEntryItems_round (es : List PasswordEntry) (hne : es ≠ [])
    (fuel : Nat) (hf : tagsBound es ≤ fuel) (rest : List Char) :
    parseEntryItems fuel (commaSep (es.map entryJson) ++ (']' :: rest)) =
      some (es, rest) := by
  induction es generalizing fuel rest with
  | nil => exact absurd rfl hne
  | cons e es ih =>
    obtain ⟨f, rfl⟩ : ∃ f, fuel = f + 1 := by
      cases fuel
      · simp [tagsBound] at hf
      · exact ⟨_, rfl⟩
    have hbound : e.tags.length + 1 + tagsBound es ≤ f + 1 := by
      simpa [tagsBound] using hf
    cases es with
    | nil =>
      show parseEntryItems (f + 1) (entryJson e ++ (']' :: rest)) = _
      have hpe := parseEntry_round e (f + 1) (by omega) (']' :: rest)
      simp only [parseEntryItems]
      rw [hpe]
      rfl
    | cons e2 es2 =>
      have hshape : commaSep ((e :: e2 :: es2).map entryJson) ++
          (']' :: rest) =
          entryJson e ++ (',' :: (commaSep ((e2 :: es2).map entryJson) ++
            (']' :: rest))) := by
        simp [commaSep]
      rw [hshape]
      have hpe := parseEntry_round e (f + 1) (by omega)
        (',' :: (commaSep ((e2 :: es2).map entryJson) ++ (']' :: rest)))
      have hrec := ih (by simp) f (by simp [tagsBound] at hbound ⊢; omega) rest
      simp only [parseEntryItems]
      rw [hpe]
      simp only [List.map_cons] at hrec
      simp [hrec]

theorem parseEntriesArr_round (es : List PasswordEntry) (fuel : Nat)
    (hf : tagsBound es ≤ fuel) (rest : List Char) :
    parseEntriesArr fuel (entriesJson es ++ rest) = some (es, rest) := by
  cases es with
  | nil =>
    have h1 : entriesJson [] ++ rest = '[' :: (']' :: rest) := by
      simp [entriesJson, commaSep]
    rw [h1, parseEntriesArr.eq_def]
    rfl
  | cons e es =>
    have htail : ∃ t, entryJson e = lbrace :: t :=
      ⟨_, by simp only [entryJson]; rfl⟩
    obtain ⟨t, ht⟩ := htail
    have hcs : ∃ Z, commaSep ((e :: es).map entryJson) ++ (']' :: rest) =
        lbrace :: Z := by
      cases es with
      | nil => exact ⟨t ++ (']' :: rest), by simp [commaSep, ht]⟩
      | cons e2 es2 =>
        exact ⟨(t ++ (',' :: commaSep ((e2 :: es2).map entryJson))) ++
          (']' :: rest), by simp [commaSep, ht, List.append_assoc]⟩
    obtain ⟨Z, hZ⟩ := hcs
    have hrec := parseEntryItems_round (e :: es) (by simp) fuel hf rest
    rw [hZ] at hrec
    have h1 : entriesJson (e :: es) ++ rest =
        '[' :: (commaSep ((e :: es).map entryJson) ++ (']' :: rest)) := by
      simp [entriesJson]
    rw [h1, hZ, parseEntriesArr.eq_def]
    simp only [lbrace] at hrec
    simp [lbrace, hrec]

theorem commaSep_qstr_length (ts : List String) :
    ts.length ≤ (commaSep (ts.map qstr)).length + 1 := by
  induction ts with
  | nil => simp
  | cons t ts ih =>
    cases ts with
    | nil =>
      simp [commaSep]
    | cons t2 ts2 =>
      have := qstr_length_ge t
      simp [commaSep, List.length_append] at ih ⊢
      omega

theorem strArr_length (ts : List String) :
    ts.length + 1 ≤ (strArr ts).length := by
  have := commaSep_qstr_length ts
  simp [strArr]
  omega

theorem entryJson_tags_length (e : PasswordEntry) :
    e.tags.length + 1 ≤ (entryJson e).length := by
  have := strArr_length e.tags
  simp [entryJson, List.length_append]
  omega

theorem tagsBound_le (es : List PasswordEntry) :
    tagsBound es ≤ (commaSep (es.map entryJson)).length + 1 := by
  induction es with
  | nil => simp [tagsBound]
  | cons e es ih =>
    cases es with
    | nil =>
      have := entryJson_tags_length e
      simp [tagsBound, commaSep]
      omega
    | cons e2 es2 =>
      have h1 := entryJson_tags_length e
      simp [tagsBound, commaSep, List.length_append] at ih ⊢
      omega

theorem vaultJson_decomp (v : VaultData) (rest : List Char) :
    vaultJson v ++ rest =
      ([lbrace] ++ "\"entries\":".toList) ++ (entriesJson v.entries ++
        (",\"version\":".toList ++ (qstr v.version ++ ([rbrace] ++ rest)))) := by
  simp [vaultJson, List.append_assoc]

theorem parseVaultAux_round (v : VaultData) (fuel : Nat)
    (hf : tagsBound v.entries ≤ fuel) (rest : List Char) :
    parseVaultAux fuel (vaultJson v ++ rest) = some (v, rest) := by
  rw [vaultJson_decomp]
  have hea := parseEntriesArr_round v.entries fuel hf
    (",\"version\":".toList ++ (qstr v.version ++ ([rbrace] ++ rest)))
  simp only [parseVaultAux]
  rw [expects_append]
  simp only [Option.bind_eq_bind, Option.some_bind]
  rw [hea]
  simp only [Option.bind_eq_bind, Option.some_bind]
  rw [expects_append]
  simp only [Option.bind_eq_bind, Option.some_bind]
  rw [parseQStr_qstr]
  simp only [Option.bind_eq_bind, Option.some_bind]
  rw [expects_append]
  simp only [Option.bind_eq_bind, Option.some_bind]

theorem parse_stringify (v : VaultData) :
    parseVaultData (stringifyVaultData v) = some v := by
  unfold parseVaultData stringifyVaultData
  have htl : (String.mk (vaultJson v)).toList = vaultJson v := rfl
  rw [htl]
  have hb : tagsBound v.entries ≤ (vaultJson v).length + 1 := by
    have h1 := tagsBound_le v.entries
    have h2 : (commaSep (v.entries.map entryJson)).length ≤
        (vaultJson v).length := by
      simp [vaultJson, entriesJson, List.length_append]
      omega
    omega
  have hr := parseVaultAux_round v ((vaultJson v).length + 1) hb []
  rw [List.append_nil] at hr
  rw [hr]

/-! ## Claim theorems: vault cryptography -/

theorem decryptData_encryptData (data mp salt iv : String) :
    decryptData (encryptData data mp salt iv) mp = .ok data := by
  simp [decryptData, encryptData, aesDecrypt, aesEncrypt, deriveKey]

/-- C1: sealing a vault under a password and opening the envelope with the
same password returns the original vault: encryptData of the JSON
serialization, decryptData with the envelope's salt and IV, then JSON
parsing, round-trip for every vault value, password, salt and IV. -/
theorem claimC1 (v : VaultData) (p salt iv : String) :
    openVault (sealVault v p salt iv) p = .ok v := by
  simp [openVault, sealVault, decryptData_encryptData, parse_stringify]

/-- C2: opening an envelope sealed under one password with a different
candidate password fails with the single generic DecryptionFailed error;
no corrupted vault is ever returned. -/
theorem claimC2 (v : VaultData) (p1 p2 salt iv : String) (h : p1 ≠ p2) :
    openVault (sealVault v p1 salt iv) p2 = .error .decryptionFailed := by
  simp [openVault, sealVault, encryptData, decryptData, aesEncrypt,
    aesDecrypt, deriveKey, h]

/-- Witness for C2 at a concrete vault and distinct passwords. -/
theorem claimC2_witness :
    openVault (sealVault { entries := [], version := "1.0.0" } "a" "s" "i")
      "b" = .error .decryptionFailed :=
  claimC2 { entries := [], version := "1.0.0" } "a" "b" "s" "i" (by decide)

/-- C3: validation accepts the password the validation envelope was built
under, rejects every other password, and is a total boolean returning true
exactly when decryption yields the fixed sentinel (every failure collapses
to false). -/
theorem claimC3 :
    (∀ (p salt iv : String),
      validateMasterPassword p (createValidationData p salt iv) = true) ∧
    (∀ (p p2 salt iv : String), p2 ≠ p →
      validateMasterPassword p2 (createValidationData p salt iv) = false) ∧
    (∀ (p : String) (env : EncryptedData),
      validateMasterPassword p env = true ↔
        decryptData env p = .ok VALIDATION_SENTINEL) := by
  refine ⟨?_, ?_, ?_⟩
  · intro p salt iv
    simp [validateMasterPassword, createValidationData,
      decryptData_encryptData]
  · intro p p2 salt iv h
    have h2 : p ≠ p2 := Ne.symm h
    simp [validateMasterPassword, createValidationData, encryptData,
      decryptData, aesEncrypt, aesDecrypt, deriveKey, h2]
  · intro p env
    cases hd : decryptData env p with
    | ok s => simp [validateMasterPassword, hd]
    | error e => simp [validateMasterPassword, hd]

/-- Witness for C3 at concrete passwords and envelope. -/
theorem claimC3_witness :
    validateMasterPassword "a" (createValidationData "a" "s" "i") = true ∧
    validateMasterPassword "b" (createValidationData "a" "s" "i") = false ∧
    (validateMasterPassword "a" (createValidationData "a" "s" "i") = true ↔
      decryptData (createValidationData "a" "s" "i") "a" =
        .ok VALIDATION_SENTINEL) :=
  ⟨claimC3.1 "a" "s" "i",
   claimC3.2.1 "a" "b" "s" "i" (by decide),
   claimC3.2.2 "a" (createValidationData "a" "s" "i")⟩

/-! ## Lemmas and claim theorems: strength estimator -/

theorem jsAddIf_num (b : Bool) (x d : ℝ) :
    jsAddIf b (.num x) d = .num (if b then x + d else x) := by
  cases b <;> simp [jsAddIf, jsAdd]

theorem jsSubIf_num (b : Bool) (x d : ℝ) :
    jsSubIf b (.num x) d = .num (if b then x - d else x) := by
  cases b <;> simp [jsSubIf, jsSub]

theorem jsAdd_num (a b : ℝ) : jsAdd (.num a) (.num b) = .num (a + b) := rfl

theorem jsMin_num (a b : ℝ) : jsMin (.num a) (.num b) = .num (min a b) := rfl

theorem jsMul_num (a b : ℝ) : jsMul (.num a) (.num b) = .num (a * b) := rfl

theorem jsDiv_num4 (a : ℝ) : jsDiv (.num a) (.num 4) = .num (a / 4) := by
  simp only [jsDiv]
  norm_num

theorem uniqueCount_pos (s : List Char) (h : s ≠ []) : uniqueCount s ≠ 0 := by
  simp only [uniqueCount, List.length_eq_zero, ne_eq, List.dedup_eq_nil]
  exact h

theorem rawScore_num (s : List Char) (h : s ≠ []) :
    ∃ y : ℝ, rawScore s = .num y := by
  have hu : ¬(uniqueCount s = 0) := uniqueCount_pos s h
  simp only [rawScore, jsAdd_num, jsMin_num, jsMul_num, jsDiv_num4,
    jsAddIf_num, jsSubIf_num, jsLog2, hu, if_false, ite_false]
  exact ⟨_, rfl⟩

theorem rawScore_nil : rawScore [] = .nan := by
  have h1 : hasLowerRe [] = false := rfl
  have h2 : hasUpperRe [] = false := rfl
  have h3 : hasDigitRe [] = false := rfl
  have h4 : hasOtherRe [] = false := rfl
  have h5 : hasTripleRepeat [] = false := rfl
  have h6 : hasCommonPattern [] = false := by decide
  have h7 : uniqueCount ([] : List Char) = 0 := rfl
  simp only [rawScore, h1, h2, h3, h4, h5, h6, h7, jsAddIf, jsSubIf,
    List.length_nil, jsLog2, if_true, if_false, Bool.false_eq_true,
    ite_false, ite_true, eq_self_iff_true, Nat.cast_zero, decide_True,
    decide_False]
  norm_num [jsAdd, jsSub, jsMin, jsMul, jsDiv]

/-- C6 counterexample: on the empty string the entropy term is
0 * log2(0) = NaN, so the clamped score is NaN (not a value in [0, 100])
and the label falls through every band to Strong. -/
theorem claimC6_counterexample :
    estimatePasswordStrength [] = (.nan, "Strong", "primary") := by
  simp only [estimatePasswordStrength, rawScore_nil, jsMin, jsMax, jsLtB,
    Bool.false_eq_true, if_false, ite_false]

/-- C6 (amended): for every nonempty input the score is a real number
clamped to [0, 100] and the label is assigned by the fixed bands
(below 30 Weak, below 60 Fair, below 80 Good, otherwise Strong); the
empty string instead yields a NaN score labeled Strong. -/
theorem claimC6 (s : List Char) (h : s ≠ []) :
    ∃ x : ℝ,
      (estimatePasswordStrength s).1 = .num x ∧ 0 ≤ x ∧ x ≤ 100 ∧
      (x < 30 → (estimatePasswordStrength s).2.1 = "Weak") ∧
      (30 ≤ x → x < 60 → (estimatePasswordStrength s).2.1 = "Fair") ∧
      (60 ≤ x → x < 80 → (estimatePasswordStrength s).2.1 = "Good") ∧
      (80 ≤ x → (estimatePasswordStrength s).2.1 = "Strong") := by
  obtain ⟨y, hy⟩ := rawScore_num s h
  have hmin : jsMin (.num 100) (.num y) = .num (min 100 y) := rfl
  have hmax : jsMax (.num 0) (.num (min 100 y)) = .num (max 0 (min 100 y)) :=
    rfl
  refine ⟨max 0 (min 100 y), ?_⟩
  have h0 : (0 : ℝ) ≤ max 0 (min 100 y) := le_max_left 0 _
  have h100 : max 0 (min 100 y) ≤ 100 :=
    max_le (by norm_num) (min_le_left 100 y)
  simp only [estimatePasswordStrength, hy, hmin, hmax, jsLtB,
    decide_eq_true_eq]
  split_ifs with hlt30 hlt60 hlt80
  · exact ⟨rfl, h0, h100, fun _ => rfl,
      fun h1 _ => absurd hlt30 (not_lt.mpr h1),
      fun h1 _ => absurd hlt30 (by push_neg; linarith),
      fun h1 => absurd hlt30 (by push_neg; linarith)⟩
  · exact ⟨rfl, h0, h100, fun hc => absurd hc hlt30,
      fun _ _ => rfl,
      fun h1 _ => absurd hlt60 (not_lt.mpr h1),
      fun h1 => absurd hlt60 (by push_neg; linarith)⟩
  · exact ⟨rfl, h0, h100, fun hc => absurd hc hlt30,
      fun _ hc => absurd hc hlt60,
      fun _ _ => rfl,
      fun h1 => absurd hlt80 (not_lt.mpr h1)⟩
  · exact ⟨rfl, h0, h100, fun hc => absurd hc hlt30,
      fun _ hc => absurd hc hlt60,
      fun _ hc => absurd hc hlt80,
      fun _ => rfl⟩

/-- Witness for C6 at a concrete nonempty password. -/
theorem claimC6_witness :
    ∃ x : ℝ,
      (estimatePasswordStrength ['a', 'b']).1 = .num x ∧
      0 ≤ x ∧ x ≤ 100 ∧
      (x < 30 → (estimatePasswordStrength ['a', 'b']).2.1 = "Weak") ∧
      (30 ≤ x → x < 60 →
        (estimatePasswordStrength ['a', 'b']).2.1 = "Fair") ∧
      (60 ≤ x → x < 80 →
        (estimatePasswordStrength ['a', 'b']).2.1 = "Good") ∧
      (80 ≤ x → (estimatePasswordStrength ['a', 'b']).2.1 = "Strong") :=
  claimC6 ['a', 'b'] (by decide)

end SecureVault
